import Mathlib

/-!
# Verification of the portfolio application core

Shallow embedding of the state-management, logging, performance-measurement
and navigation-sequencing logic of the portfolio repository:

* `src/js/main.js` (`StateManager`: `get`, `set`, `subscribe`, `notify`),
* `src/js/logger.js` (`Logger`: `addToHistory`, level methods, `getLogs`,
  `getLogsByLevel`),
* `src/unnamed/part_004` (`PerformanceMonitor`: `endMeasure`),
* `src/js/ui-manager.js` (`NavigationManager`: `navigateToProject`,
  `navigateToNextProject`, `navigateToPreviousProject`, `switchLayers`)
  together with the DOM/class helpers of the utils module.

JavaScript values are modelled by the inductive `JVal`.  Object identity is
not modelled: strict (in)equality `===`/`!==` is rendered as structural
equality, which coincides with the JavaScript semantics on the primitive
values (strings, booleans, numbers, `null`, `undefined`) that the state
tree stores at its leaves.  Built-in prototype properties of objects and
primitives (e.g. `'home'.length`, `({}).toString`) are not modelled:
property reads on primitives yield `undefined` and the `in` operator
consults only own properties.  Machine floats are rendered as `Int`
(no arithmetic on them is specified).  Code that can throw a strict-mode
`TypeError` is rendered with `Except`.
-/

namespace Portfolio

mutual
/-- Model of a JavaScript value (see module comment for the identity and
prototype caveats). -/
inductive JVal where
  | undefined : JVal
  | null : JVal
  | bool : Bool → JVal
  | num : Int → JVal
  | str : String → JVal
  | obj : JFields → JVal
deriving DecidableEq

/-- The own properties of an object, in insertion order (keys unique by
construction, as in a JavaScript object). -/
inductive JFields where
  | nil : JFields
  | cons : String → JVal → JFields → JFields
deriving DecidableEq
end

/-- Is the value a (non-null) object? -/
def JVal.isObj : JVal → Bool
  | .obj _ => true
  | _ => false

/-- Own-property membership: `k in o`. -/
def JFields.has : JFields → String → Bool
  | .nil, _ => false
  | .cons k _ r, key => k = key || r.has key

/-- Own-property read: `o[k]`, `undefined` when absent. -/
def JFields.get : JFields → String → JVal
  | .nil, _ => .undefined
  | .cons k v r, key => if k = key then v else r.get key

/-- Own-property write `o[k] = v`: existing keys keep their position and
value is replaced, new keys are appended — JavaScript property order. -/
def JFields.set : JFields → String → JVal → JFields
  | .nil, key, v => .cons key v .nil
  | .cons k w r, key, v =>
    if k = key then .cons k v r else .cons k w (r.set key v)

/-- `value?.[k]` — optional-chained property read: `undefined` on
`undefined`/`null`, own-property lookup on objects, `undefined` on other
primitives (built-ins not modelled). -/
def jsGetStep (v : JVal) (k : String) : JVal :=
  match v with
  | .obj fs => fs.get k
  | _ => .undefined

/-- Splitter for `key.split('.')` over the character list of the key:
maximal (possibly empty) runs between `'.'` separators.  Total and never
returns `[]`, exactly like `String.prototype.split` with a literal
separator. -/
def splitDots : List Char → List (List Char)
  | [] => [[]]
  | c :: cs =>
    let r := splitDots cs
    if c = '.' then [] :: r
    else
      match r with
      | [] => [[c]]
      | h :: t => (c :: h) :: t

/-- `key.split('.')` as used by `StateManager.get`/`set`. -/
def jsplit (key : String) : List String :=
  (splitDots key.toList).map (fun l => String.mk l)

/-- The strict-mode `TypeError`s the state setter can raise. -/
inductive JsErr where
  | typeError : JsErr
deriving DecidableEq, Repr

instance {ε α : Type} [DecidableEq ε] [DecidableEq α] : DecidableEq (Except ε α) :=
  fun x y =>
    match x, y with
    | .ok a, .ok b => if h : a = b then .isTrue (by rw [h]) else .isFalse (by simp [h])
    | .error a, .error b => if h : a = b then .isTrue (by rw [h]) else .isFalse (by simp [h])
    | .ok _, .error _ => .isFalse (by simp)
    | .error _, .ok _ => .isFalse (by simp)

/-- Core of `StateManager.set`: the `for` loop over all but the last
segment (`if (!(k in target)) target[k] = {}; target = target[k]`)
followed by the guarded leaf write
(`if (oldValue !== value) target[lastKey] = value`).
Returns the updated tree and `oldValue`.

Errors model the strict-mode `TypeError`s of the source:
`k in target` throws when `target` is not an object;
reading `target[lastKey]` throws when `target` is `null`/`undefined`;
writing `target[lastKey]` throws when `target` is a primitive.
(When the walk errors no intermediate container created earlier can have
been committed, because a freshly created `{}` makes every deeper step
succeed, so returning the untouched tree on error is faithful.) -/
def setGo : JVal → List String → String → JVal → Except JsErr (JVal × JVal)
  | target, [], lastKey, v =>
    match target with
    | .obj fs =>
      let oldValue := fs.get lastKey
      if oldValue = v then .ok (.obj fs, oldValue)
      else .ok (.obj (fs.set lastKey v), oldValue)
    | .null => .error .typeError
    | .undefined => .error .typeError
    | t =>
      -- non-null primitive: the read yields `undefined`, the write throws
      if v = .undefined then .ok (t, .undefined) else .error .typeError
  | target, k :: ks, lastKey, v =>
    match target with
    | .obj fs =>
      let child := if fs.has k then fs.get k else .obj .nil
      match setGo child ks lastKey v with
      | .ok (child', oldValue) => .ok (.obj (fs.set k child'), oldValue)
      | .error e => .error e
    | _ => .error .typeError

/-- The loop of `StateManager.get`:
`value = value?.[k]; if (value === undefined) break`. -/
def getLoop : JVal → List String → JVal
  | v, [] => v
  | v, k :: ks =>
    let v' := jsGetStep v k
    if v' = .undefined then v' else getLoop v' ks

/-- Observer callbacks are identified by an id; their behaviour (whether a
given callback throws) is supplied as an environment `CbId → Bool`. -/
abbrev CbId := Nat

/-- The `StateManager` instance state: the nested `this.state` tree and
`this.observers`, a `Map` from key to a `Set` of callbacks.  Both `Map`
and `Set` iterate in insertion order, rendered as insertion-ordered
lists (keys unique, callback lists duplicate-free — `SMWF`). -/
structure SMState where
  tree : JVal
  observers : List (String × List CbId)
deriving DecidableEq

/-- `this.observers.get(key)` — `none` when the key was never subscribed
(a `Map` holds at most one entry per key). -/
def obsFind : List (String × List CbId) → String → Option (List CbId)
  | [], _ => none
  | p :: rest, key => if p.1 = key then some p.2 else obsFind rest key

/-- The callbacks registered for `key`, in registration order
(empty when the key was never subscribed). -/
def obsOf (s : SMState) (key : String) : List CbId :=
  (obsFind s.observers key).getD []

/-- `this.observers.set(key, v)` — replace the key's entry in place, or
append a new entry (`Map` iteration order is insertion order). -/
def obsSet : List (String × List CbId) → String → List CbId → List (String × List CbId)
  | [], key, v => [(key, v)]
  | p :: rest, key, v =>
    if p.1 = key then (key, v) :: rest else p :: obsSet rest key v

/-- `Set.prototype.add`: a no-op on members, otherwise appended. -/
def setAdd (l : List CbId) (cb : CbId) : List CbId :=
  if cb ∈ l then l else l ++ [cb]

/-- `StateManager.subscribe(key, callback)`: ensure the key has a `Set`,
then `add` the callback. -/
def SMState.subscribe (s : SMState) (key : String) (cb : CbId) : SMState :=
  let obs0 := if (obsFind s.observers key).isSome then s.observers
              else obsSet s.observers key []
  { s with observers := obsSet obs0 key (setAdd ((obsFind obs0 key).getD []) cb) }

/-- The unsubscribe closure returned by `subscribe`:
`this.observers.get(key)?.delete(callback)`. -/
def SMState.unsubscribe (s : SMState) (key : String) (cb : CbId) : SMState :=
  match obsFind s.observers key with
  | none => s
  | some l => { s with observers := obsSet s.observers key (l.filter (fun c => c ≠ cb)) }

/-- One observer invocation `callback(newValue, oldValue)`. -/
structure Invocation where
  cb : CbId
  newValue : JVal
  oldValue : JVal
deriving DecidableEq

/-- The `observers.forEach` loop of `StateManager.notify`: every callback
is invoked with `(newValue, oldValue)` inside a `try`; a throwing callback
is caught and logged (`logger.error`) and iteration continues.
Returns the invocation trace and the ids whose errors were logged. -/
def notifyLoop (throws : CbId → Bool) (nv ov : JVal) :
    List CbId → List Invocation × List CbId
  | [] => ([], [])
  | cb :: rest =>
    let tailRes := notifyLoop throws nv ov rest
    (⟨cb, nv, ov⟩ :: tailRes.1, (if throws cb then [cb] else []) ++ tailRes.2)

/-- `StateManager.notify(key, newValue, oldValue)`. -/
def SMState.notify (throws : CbId → Bool) (s : SMState) (key : String) (nv ov : JVal) :
    List Invocation × List CbId :=
  match obsFind s.observers key with
  | some l => notifyLoop throws nv ov l
  | none => ([], [])

/-- Everything one `StateManager.set` call produces: the post-state, the
notification broadcast `(newValue, oldValue)` (`none` when the stored
value was strictly equal), the observer invocation trace, and the ids of
observers whose exceptions were caught and logged. -/
structure SetOutcome where
  st : SMState
  notified : Option (JVal × JVal)
  invocations : List Invocation
  errorsLogged : List CbId
deriving DecidableEq

/-- `StateManager.set(key, value)`: split the key, pop the last segment,
walk/auto-create, write when changed, then notify. -/
def SMState.set (throws : CbId → Bool) (s : SMState) (key : String) (v : JVal) :
    Except JsErr SetOutcome :=
  -- `const keys = key.split('.')`; `const lastKey = keys.pop()` — `jsplit`
  -- never returns `[]`, so `pop` yields the last segment and leaves the rest
  match setGo s.tree ((jsplit key).dropLast) ((jsplit key).getLastD "") v with
  | .error e => .error e
  | .ok (tree', oldValue) =>
    if oldValue = v then
      .ok ⟨{ s with tree := tree' }, none, [], []⟩
    else
      .ok ⟨{ s with tree := tree' }, some (v, oldValue),
           (SMState.notify throws s key v oldValue).1,
           (SMState.notify throws s key v oldValue).2⟩

/-- `StateManager.get(key)`. -/
def SMState.get (s : SMState) (key : String) : JVal :=
  getLoop s.tree (jsplit key)

/-- The initial `this.state` of the `StateManager` constructor. -/
def initialTree : JVal :=
  .obj (.cons "currentView" (.str "home")
       (.cons "currentProjectIndex" (.num 0)
       (.cons "soundEnabled" (.bool true)
       (.cons "theme" (.str "dark")
       (.cons "isLoading" (.bool true)
       (.cons "animations"
         (.obj (.cons "starsActive" (.bool false)
               (.cons "portfolio3DActive" (.bool false) .nil)))
         .nil))))))

/-- The freshly constructed `StateManager` (no observers yet). -/
def initialSM : SMState := ⟨initialTree, []⟩

/-- Well-formedness the observer map enjoys by construction: every
callback list is duplicate-free (each is a `Set`). -/
def SMWF (obs : List (String × List CbId)) : Prop :=
  ∀ p ∈ obs, p.2.Nodup

/-! ## Logger (`src/js/logger.js`), value-level model

A `LogEntry` is the record `formatLog` builds (timestamp, level, message,
data, url); timestamps and the url come from the environment and are
passed as arguments.  This model treats entries as values — sufficient for
the capacity/FIFO behaviour of `addToHistory`.  Aliasing of entry and
array objects, which `getLogs`/`getLogsByLevel` are about, is modelled
separately below by a small heap (`LogHeap`). -/

/-- The record built by `Logger.formatLog`. -/
structure LogEntry where
  timestamp : String
  level : String
  message : String
  data : JVal
  url : String
deriving DecidableEq

/-- `this.maxLogs` (set in the `Logger` constructor). -/
def maxLogs : Nat := 100

/-- `Logger.addToHistory`: push, then `shift()` once when over capacity. -/
def addToHistory (logs : List LogEntry) (e : LogEntry) : List LogEntry :=
  let l := logs ++ [e]
  if maxLogs < l.length then l.drop 1 else l

/-- `error?.message || error` and `error?.stack`, the normalisation done
by `Logger.error`.  `truthy` is JavaScript boolean coercion (`NaN` not
modelled — numbers are `Int`). -/
def truthy : JVal → Bool
  | .undefined => false
  | .null => false
  | .bool b => b
  | .num n => n ≠ 0
  | .str s => s ≠ ""
  | .obj _ => true

/-- The `data` field `Logger.error` stores:
`{ error: error?.message || error, stack: error?.stack }`. -/
def errData (err : JVal) : JVal :=
  .obj (.cons "error"
          (if truthy (jsGetStep err "message") then jsGetStep err "message" else err)
       (.cons "stack" (jsGetStep err "stack") .nil))

/-- One call to a `Logger` level method, with the environment-supplied
timestamp and url that `formatLog` reads. -/
inductive LogCall where
  | debug : String → String → String → JVal → LogCall
  | info : String → String → String → JVal → LogCall
  | warn : String → String → String → JVal → LogCall
  | error : String → String → String → JVal → LogCall
deriving DecidableEq

/-- The entry a given level call appends (each level method is
`addToHistory(formatLog(LEVEL, message, data))`; `error` first normalises
its error argument via `errData`). -/
def entryOf : LogCall → LogEntry
  | .debug ts url msg data => ⟨ts, "DEBUG", msg, data, url⟩
  | .info ts url msg data => ⟨ts, "INFO", msg, data, url⟩
  | .warn ts url msg data => ⟨ts, "WARN", msg, data, url⟩
  | .error ts url msg err => ⟨ts, "ERROR", msg, errData err, url⟩

/-- Run one level call against the retained history. -/
def runLog (logs : List LogEntry) (c : LogCall) : List LogEntry :=
  addToHistory logs (entryOf c)

/-- Run a sequence of level calls (console mirroring is outside the model:
it never touches `this.logs`). -/
def runLogs (logs : List LogEntry) (cs : List LogCall) : List LogEntry :=
  cs.foldl runLog logs

/-! ## Logger, reference-level model (`getLogs` / `getLogsByLevel`)

`this.logs` is an array of references to entry objects.  `getLogs`
returns `[...this.logs]` and `getLogsByLevel` returns
`this.logs.filter(...)`: both allocate a fresh array whose slots hold the
same entry references.  The heap has two stores, arrays (lists of entry
ids) and entries; ids are allocation indices.  Array id `0` is the
logger's own `this.logs`.  Caller-side mutation of a returned value is
`writeArr` / `writeEntry`. -/

/-- An entry object on the heap (level and message suffice for the
aliasing questions; the remaining fields behave identically). -/
structure HEntry where
  level : String
  message : String
deriving DecidableEq

/-- The heap: entry objects and arrays of entry references. -/
structure LogHeap where
  entries : List HEntry
  arrays : List (List Nat)
deriving DecidableEq

/-- Write an element of a list by position (no-op out of range). -/
def listSet {α : Type} : List α → Nat → α → List α
  | [], _, _ => []
  | _ :: xs, 0, v => v :: xs
  | x :: xs, n + 1, v => x :: listSet xs n v

/-- The heap at `Logger` construction: no entries, the history array
(`this.logs = []`) at id 0. -/
def heapInit : LogHeap := ⟨[], [[]]⟩

/-- Read an array from the heap. -/
def lookupArr (h : LogHeap) (a : Nat) : List Nat :=
  (h.arrays.get? a).getD []

/-- Read an entry object from the heap. -/
def lookupEntry (h : LogHeap) (e : Nat) : HEntry :=
  (h.entries.get? e).getD ⟨"", ""⟩

/-- Caller-side mutation of an array object (covers `push`, `splice`,
element replacement, …: the caller may leave any contents). -/
def writeArr (h : LogHeap) (a : Nat) (l : List Nat) : LogHeap :=
  { h with arrays := listSet h.arrays a l }

/-- Caller-side in-place mutation of an entry object. -/
def writeEntry (h : LogHeap) (e : Nat) (v : HEntry) : LogHeap :=
  { h with entries := listSet h.entries e v }

/-- `Logger.addToHistory` on the heap: allocate the entry object, push its
reference onto `this.logs` (array 0), `shift()` when over capacity. -/
def haddToHistory (h : LogHeap) (e : HEntry) : LogHeap :=
  let eid := h.entries.length
  let h1 : LogHeap := { h with entries := h.entries ++ [e] }
  let l := lookupArr h1 0 ++ [eid]
  writeArr h1 0 (if maxLogs < l.length then l.drop 1 else l)

/-- `Logger.getLogs`: `[...this.logs]` — a fresh array, same entry
references.  Returns the new heap and the id of the returned array. -/
def hgetLogs (h : LogHeap) : LogHeap × Nat :=
  ({ h with arrays := h.arrays ++ [lookupArr h 0] }, h.arrays.length)

/-- `Logger.getLogsByLevel(level)`: `this.logs.filter(log => log.level
=== level)` — a fresh array of the matching entry references. -/
def hgetLogsByLevel (h : LogHeap) (lvl : String) : LogHeap × Nat :=
  ({ h with arrays :=
      h.arrays ++ [(lookupArr h 0).filter (fun e => (lookupEntry h e).level = lvl)] },
   h.arrays.length)

/-- What the logger's retained history denotes: `this.logs` with each
entry reference dereferenced. -/
def history (h : LogHeap) : List HEntry :=
  (lookupArr h 0).map (lookupEntry h)

/-! ## PerformanceMonitor (`src/unnamed/part_004`)

`performance.mark`/`measure` live in the environment: the measured
duration and the wall-clock timestamp are arguments.  `this.marks` maps a
name to its start data, `this.metrics` accumulates `{duration,
timestamp}` records per name.  `isSupported` is the constructor's
`'performance' in window && 'mark' in window.performance` check. -/

/-- One recorded metric `{ duration, timestamp }`. -/
structure PerfMetric where
  duration : Int
  timestamp : Int
deriving DecidableEq, Repr

/-- The `PerformanceMonitor` instance state. -/
structure PerfMonitor where
  metrics : List (String × List PerfMetric)
  marks : List (String × Int)
  isSupported : Bool
deriving DecidableEq, Repr

/-- Association-list read (`Map.prototype.get`). -/
def alistFind {α : Type} : List (String × α) → String → Option α
  | [], _ => none
  | p :: rest, key => if p.1 = key then some p.2 else alistFind rest key

/-- Association-list write (`Map.prototype.set`): replace in place or
append. -/
def alistSet {α : Type} : List (String × α) → String → α → List (String × α)
  | [], key, v => [(key, v)]
  | p :: rest, key, v =>
    if p.1 = key then (key, v) :: rest else p :: alistSet rest key v

/-- `Map.prototype.delete`. -/
def alistDel {α : Type} (l : List (String × α)) (key : String) : List (String × α) :=
  l.filter (fun p => p.1 ≠ key)

/-- The monitor as constructed. -/
def perfInit (supported : Bool) : PerfMonitor := ⟨[], [], supported⟩

/-- `PerformanceMonitor.startMeasure(name)`: no-op when unsupported,
otherwise `performance.mark` and `this.marks.set(name, {...})` (the mark
data is represented by its `startTime`). -/
def startMeasure (pm : PerfMonitor) (name : String) (now : Int) : PerfMonitor :=
  if pm.isSupported then { pm with marks := alistSet pm.marks name now } else pm

/-- Result of one `endMeasure` call: the new state, the returned value
(`null` ↦ `none`), and whether `logger.warn` fired. -/
structure EndOutcome where
  pm : PerfMonitor
  ret : Option Int
  warned : Bool
deriving DecidableEq, Repr

/-- `PerformanceMonitor.endMeasure(name)`:
`if (!this.isSupported) return null`; then, with no matching start mark,
warn `No start mark found` and return `null`; otherwise measure (the
duration `dur` comes from the `performance` API), append
`{duration, timestamp}` to `this.metrics.get(name)`, clear the mark and
return the duration.  The `try/catch` wrapper means the call never
raises. -/
def endMeasure (pm : PerfMonitor) (name : String) (dur now : Int) : EndOutcome :=
  if ¬ pm.isSupported then ⟨pm, none, false⟩
  else
    match alistFind pm.marks name with
    | none => ⟨pm, none, true⟩
    | some _ =>
      let prev := (alistFind pm.metrics name).getD []
      ⟨{ pm with metrics := alistSet pm.metrics name (prev ++ [⟨dur, now⟩]),
                 marks := alistDel pm.marks name },
       some dur, false⟩

/-! ## NavigationManager (`src/js/ui-manager.js`)

The DOM regions the sibling-navigation code touches: the ordered
`.portfolio-items > article` elements (addressed 1-based by
`:nth-child(i)`) and the two crossfade layer containers.  Elements are
identified by their position; an element's state is its class list.
`classList.add` appends when absent, `classList.remove` deletes; the
`addClass`/`removeClass` helpers of the utils module are no-ops on
`null`.  `delayExecution(d, cb)` is `setTimeout(cb, d)`: the callback is
queued and runs only after the synchronous body finished, so scheduled
actions are modelled as a pending queue `(delay, action)`, executed by
`fireFirst` strictly after `navigateToProject` returned. -/

/-- A DOM element: its class list (`classList` preserves insertion order
and ignores duplicate adds). -/
structure Elem where
  classes : List String
deriving DecidableEq, Repr

/-- `classList.add`. -/
def Elem.addClass (e : Elem) (c : String) : Elem :=
  if c ∈ e.classes then e else ⟨e.classes ++ [c]⟩

/-- `classList.remove`. -/
def Elem.removeClass (e : Elem) (c : String) : Elem :=
  ⟨e.classes.filter (fun x => x ≠ c)⟩

/-- The DOM regions of the model. -/
structure Dom where
  articles : List Elem
  layers : List Elem
deriving DecidableEq, Repr

/-- `safeQuerySelector('.portfolio-items > article:nth-child(i)')`:
the 0-based position of the hit, `none` when no element exists there
(`:nth-child` is 1-based; out-of-range and non-positive indices match
nothing, and `safeQuerySelector` turns selector errors into `null`). -/
def nthArticle (dom : Dom) (i : Int) : Option Nat :=
  if 1 ≤ i ∧ i ≤ (dom.articles.length : Int) then some (i.toNat - 1) else none

/-- `safeQuerySelector('.' + cls)` over the layer containers: the first
layer bearing the class. -/
def queryLayer (dom : Dom) (cls : String) : Option Nat :=
  dom.layers.findIdx? (fun e => cls ∈ e.classes)

/-- Update an article in place (`addClass`/`removeClass` are no-ops when
the captured element reference is `null`). -/
def updArticle (dom : Dom) (i : Option Nat) (f : Elem → Elem) : Dom :=
  match i with
  | none => dom
  | some idx => { dom with articles := listSet dom.articles idx (f ((dom.articles.get? idx).getD ⟨[]⟩)) }

/-- Update a layer in place. -/
def updLayer (dom : Dom) (i : Option Nat) (f : Elem → Elem) : Dom :=
  match i with
  | none => dom
  | some idx => { dom with layers := listSet dom.layers idx (f ((dom.layers.get? idx).getD ⟨[]⟩)) }

/-- Audio cues (`audioManager.playClick` / `playPaper`). -/
inductive Cue where
  | click : Cue
  | paper : Cue
deriving DecidableEq, Repr

/-- The closures `navigateToProject` hands to `delayExecution`, with the
element references they captured at initiation time. -/
inductive DelayedAction where
  /-- `removeClass(currentProject, ACTIVE)` then `addClass(currentProject,
  toBottom ? TO_BOTTOM : TO_TOP)`. -/
  | deactivateCurrent : Option Nat → Bool → DelayedAction
  /-- `addClass(targetProject, ACTIVE)`, `removeClass(targetProject,
  TO_TOP)`, `removeClass(targetProject, TO_BOTTOM)`. -/
  | activateTarget : Option Nat → DelayedAction
  /-- `switchLayers(notActiveLayer, activeLayer)` (forward direction). -/
  | switchLayersFwd : Option Nat → Option Nat → DelayedAction
  /-- `audioManager.playPaper()`. -/
  | paperCue : DelayedAction
deriving DecidableEq, Repr

/-- The `NavigationManager` state together with the DOM it drives, the
queue of scheduled-but-unfired timer callbacks and the audio-cue trace. -/
structure NavState where
  currentProjectIndex : Int
  dom : Dom
  pending : List (Nat × DelayedAction)
  audio : List Cue
deriving DecidableEq, Repr

/-- `NavigationManager.switchLayers(notActiveLayer, activeLayer)` in the
forward (`reverse = false`) direction used by `navigateToProject`. -/
def switchLayersFwdRun (dom : Dom) (na act : Option Nat) : Dom :=
  match na, act with
  | some nai, some acti =>
    let dom := updLayer dom (some nai) (fun e =>
      ((e.removeClass "not-active-layer").addClass "active-layer").removeClass "opacity-0")
    updLayer dom (some acti) (fun e =>
      (e.addClass "not-active-layer").removeClass "active-layer")
  | _, _ => dom   -- `if (!notActiveLayer || !activeLayer) return`

/-- Execute one timer callback against the current state. -/
def fireAction (s : NavState) : DelayedAction → NavState
  | .deactivateCurrent cur toBottom =>
    { s with dom := updArticle s.dom cur (fun e =>
        (e.removeClass "active").addClass (if toBottom then "to-bottom" else "to-top")) }
  | .activateTarget tgt =>
    { s with dom := updArticle s.dom tgt (fun e =>
        ((e.addClass "active").removeClass "to-top").removeClass "to-bottom") }
  | .switchLayersFwd na act => { s with dom := switchLayersFwdRun s.dom na act }
  | .paperCue => { s with audio := s.audio ++ [Cue.paper] }

/-- Fire the earliest pending timer (the queue is kept in firing order:
the four delays of one navigation are strictly increasing). -/
def fireFirst (s : NavState) : NavState :=
  match s.pending with
  | [] => s
  | (_, a) :: rest => fireAction { s with pending := rest } a

/-- `NavigationManager.navigateToProject(targetIndex)`.  Mirrors the
source order: `playClick()`; query the layers and the current and target
articles; `if (!targetProject) return`; compute the direction; schedule
the four delayed closures; finally `this.currentProjectIndex =
targetIndex` — still synchronously, before any timer can fire. -/
def navigateToProject (s : NavState) (targetIndex : Int) : NavState :=
  let s1 : NavState := { s with audio := s.audio ++ [Cue.click] }
  let notActiveLayer := queryLayer s1.dom "not-active-layer"
  let activeLayer := queryLayer s1.dom "active-layer"
  let currentProject := nthArticle s1.dom s1.currentProjectIndex
  let targetProject := nthArticle s1.dom targetIndex
  match targetProject with
  | none => s1
  | some _ =>
    let toBottom := targetIndex > s1.currentProjectIndex
    { s1 with
      pending := s1.pending ++
        [(200, .deactivateCurrent currentProject toBottom),
         (250, .activateTarget targetProject),
         (300, .switchLayersFwd notActiveLayer activeLayer),
         (750, .paperCue)],
      currentProjectIndex := targetIndex }

/-- `NavigationManager.navigateToNextProject()`. -/
def navigateToNextProject (s : NavState) : NavState :=
  navigateToProject s (s.currentProjectIndex + 1)

/-- `NavigationManager.navigateToPreviousProject()`. -/
def navigateToPreviousProject (s : NavState) : NavState :=
  navigateToProject s (s.currentProjectIndex - 1)

/-! ## Derived notions the theorems quantify over -/

/-- The walk of `StateManager.get` hits a segment that reads as
`undefined` (an absent property, or any read below a primitive): the
"absent path" of the specification. -/
def pathAbsent : JVal → List String → Bool
  | _, [] => false
  | v, k :: ks =>
    if jsGetStep v k = .undefined then true else pathAbsent (jsGetStep v k) ks

/-- Every *existing* value along the intermediate chain of a `set` walk is
a plain object (absent segments are fine — the walk auto-creates them),
and so is the final write target.  This is exactly the condition under
which the walk of `StateManager.set` cannot hit a strict-mode
`TypeError`. -/
def navigable : JVal → List String → Bool
  | .obj _, [] => true
  | .obj fs, k :: ks => if fs.has k then navigable (fs.get k) ks else true
  | _, _ => false

/-- A sequence of `set` calls on one key, collecting every observer
invocation they produce (a call that throws aborts the sequence, like an
uncaught exception would). -/
def runSetsAt (throws : CbId → Bool) (s : SMState) (key : String) :
    List JVal → SMState × List Invocation
  | [] => (s, [])
  | v :: vs =>
    match SMState.set throws s key v with
    | .ok o =>
      let r := runSetsAt throws o.st key vs
      (r.1, o.invocations ++ r.2)
    | .error _ => (s, [])

/-! ## Concrete inputs used by the witnesses -/

/-- A store with one observer (id 0) on `"currentView"`. -/
def demoS : SMState := SMState.subscribe initialSM "currentView" 0

/-- The outcome of `demoS.set('currentView', 'portfolio')` (checked by
the kernel in the witness proofs). -/
def demoO1 : SetOutcome :=
  ⟨⟨.obj (.cons "currentView" (.str "portfolio")
       (.cons "currentProjectIndex" (.num 0)
       (.cons "soundEnabled" (.bool true)
       (.cons "theme" (.str "dark")
       (.cons "isLoading" (.bool true)
       (.cons "animations"
         (.obj (.cons "starsActive" (.bool false)
               (.cons "portfolio3DActive" (.bool false) .nil)))
         .nil)))))), [("currentView", [0])]⟩,
   some (.str "portfolio", .str "home"),
   [⟨0, .str "portfolio", .str "home"⟩], []⟩

/-- 150 = capacity + 50 logging calls. -/
def demoCalls : List LogCall :=
  (List.range 150).map (fun i => LogCall.info "t" "u" "m" (.num i))

/-- A three-article DOM with the usual two layers. -/
def demoDom : Dom :=
  ⟨[⟨["active"]⟩, ⟨["to-top"]⟩, ⟨["to-top"]⟩],
   [⟨["active-layer"]⟩, ⟨["not-active-layer"]⟩]⟩

/-- A navigation state sitting on project 1 of `demoDom`. -/
def demoNav : NavState := ⟨1, demoDom, [], []⟩

/-- Observer environment in which callback 0 throws and the rest do not. -/
def demoThrows : CbId → Bool := fun c => c == 0

/-- A store with two observers on `"currentView"`: 0 (throwing), then 1. -/
def demoS2 : SMState :=
  SMState.subscribe (SMState.subscribe initialSM "currentView" 0) "currentView" 1

/-- The outcome of `demoS2.set('currentView', 'x')` under `demoThrows`
(checked by the kernel in the witness proofs). -/
def demoO2 : SetOutcome :=
  ⟨⟨.obj (.cons "currentView" (.str "x")
       (.cons "currentProjectIndex" (.num 0)
       (.cons "soundEnabled" (.bool true)
       (.cons "theme" (.str "dark")
       (.cons "isLoading" (.bool true)
       (.cons "animations"
         (.obj (.cons "starsActive" (.bool false)
               (.cons "portfolio3DActive" (.bool false) .nil)))
         .nil)))))), [("currentView", [0, 1])]⟩,
   some (.str "x", .str "home"),
   [⟨0, .str "x", .str "home"⟩, ⟨1, .str "x", .str "home"⟩], [0]⟩

/-- A one-entry log heap for the aliasing scenarios. -/
def demoHeap : LogHeap := haddToHistory heapInit ⟨"INFO", "hello"⟩

/-! # Theorems

First a block of helper lemmas about the object/association-list
operations and the `set` walk, then one theorem per specification claim
(with its witness or counterexample). -/

theorem JFields.get_set_self (k : String) (v : JVal) :
    (fs : JFields) → (fs.set k v).get k = v
  | .nil => by simp [JFields.set, JFields.get]
  | .cons k' w r => by
    by_cases h : k' = k
    · simp [JFields.set, JFields.get, h]
    · simp [JFields.set, JFields.get, h, JFields.get_set_self k v r]

theorem JFields.has_set_self (k : String) (v : JVal) :
    (fs : JFields) → (fs.set k v).has k = true
  | .nil => by simp [JFields.set, JFields.has]
  | .cons k' w r => by
    by_cases h : k' = k
    · simp [JFields.set, JFields.has, h]
    · simp [JFields.set, JFields.has, h, JFields.has_set_self k v r]

theorem JFields.set_set (k : String) (a b : JVal) :
    (fs : JFields) → (fs.set k a).set k b = fs.set k b
  | .nil => by simp [JFields.set]
  | .cons k' w r => by
    by_cases h : k' = k
    · simp [JFields.set, h]
    · simp [JFields.set, h, JFields.set_set k a b r]

theorem obsFind_obsSet_self (obs : List (String × List CbId)) (k : String)
    (v : List CbId) : obsFind (obsSet obs k v) k = some v := by
  induction obs with
  | nil => simp [obsSet, obsFind]
  | cons p rest ih =>
    by_cases h : p.1 = k
    · simp [obsSet, obsFind, h]
    · simp [obsSet, obsFind, h, ih]

theorem obsFind_obsSet_ne (obs : List (String × List CbId)) {k k' : String}
    (h : k' ≠ k) (v : List CbId) : obsFind (obsSet obs k v) k' = obsFind obs k' := by
  induction obs with
  | nil => simp [obsSet, obsFind, Ne.symm h]
  | cons p rest ih =>
    by_cases hp : p.1 = k
    · simp [obsSet, obsFind, hp, Ne.symm h]
    · simp [obsSet, obsFind, hp, ih]

theorem obsSet_obsSet (obs : List (String × List CbId)) (k : String)
    (a b : List CbId) : obsSet (obsSet obs k a) k b = obsSet obs k b := by
  induction obs with
  | nil => simp [obsSet]
  | cons p rest ih =>
    by_cases h : p.1 = k
    · simp [obsSet, h]
    · simp [obsSet, h, ih]

theorem setAdd_mem (l : List CbId) (cb : CbId) : cb ∈ setAdd l cb := by
  by_cases h : cb ∈ l <;> simp [setAdd, h]

theorem setAdd_idem (l : List CbId) (cb : CbId) :
    setAdd (setAdd l cb) cb = setAdd l cb := by
  by_cases h : cb ∈ l <;> simp [setAdd, h]

theorem setAdd_nodup {l : List CbId} (h : l.Nodup) (cb : CbId) :
    (setAdd l cb).Nodup := by
  by_cases hm : cb ∈ l
  · simpa [setAdd, hm] using h
  · simp [setAdd, hm, List.nodup_append, h]

theorem splitDots_ne_nil : (cs : List Char) → splitDots cs ≠ []
  | [] => by simp [splitDots]
  | c :: cs => by
    simp only [splitDots]
    by_cases h : c = '.'
    · simp [h]
    · cases hr : splitDots cs <;> simp [h, hr]

theorem jsplit_ne_nil (key : String) : jsplit key ≠ [] := by
  simp [jsplit, splitDots_ne_nil]

theorem dropLast_getLastD {α : Type} : (l : List α) → l ≠ [] → ∀ d : α,
    l.dropLast ++ [l.getLastD d] = l
  | [_], _, _ => rfl
  | a :: b :: t, _, d => by
    have ih := dropLast_getLastD (b :: t) (by simp) a
    rw [List.getLastD_cons]
    show a :: ((b :: t).dropLast ++ [(b :: t).getLastD a]) = a :: b :: t
    rw [ih]

/-- The full segment list of a key is its `set`-walk prefix plus the
popped last segment. -/
theorem jsplit_split (key : String) :
    (jsplit key).dropLast ++ [(jsplit key).getLastD ""] = jsplit key :=
  dropLast_getLastD (jsplit key) (jsplit_ne_nil key) ""

/-- After a `set` walk that actually wrote (`oldValue !== value`), running
the walk again on the same path succeeds, reads back the stored value as
the new `oldValue`, and a same-value re-run leaves the tree untouched. -/
theorem setGo_again {t t' old : JVal} {inter : List String} {lk : String} {v : JVal}
    (h : setGo t inter lk v = .ok (t', old)) (hw : old ≠ v) (w : JVal) :
    ∃ t'', setGo t' inter lk w = .ok (t'', v) ∧ (w = v → t'' = t') := by
  induction inter generalizing t t' with
  | nil =>
    cases t with
    | obj fs =>
      simp only [setGo] at h
      by_cases hov : fs.get lk = v
      · rw [if_pos hov] at h
        simp at h
        exact absurd (h.2 ▸ hov) hw
      · rw [if_neg hov] at h
        simp at h
        obtain ⟨ht', -⟩ := h
        by_cases hwv : w = v
        · refine ⟨t', ?_, fun _ => rfl⟩
          simp [← ht', setGo, JFields.get_set_self, hwv]
        · refine ⟨.obj ((fs.set lk v).set lk w), ?_, fun hc => absurd hc hwv⟩
          simp [← ht', setGo, JFields.get_set_self, Ne.symm hwv]
    | null => simp [setGo] at h
    | undefined => simp [setGo] at h
    | bool b =>
      simp only [setGo] at h
      by_cases hv : v = .undefined
      · rw [if_pos hv] at h; simp at h
        exact absurd (h.2 ▸ hv.symm) hw
      · rw [if_neg hv] at h; simp at h
    | num n =>
      simp only [setGo] at h
      by_cases hv : v = .undefined
      · rw [if_pos hv] at h; simp at h
        exact absurd (h.2 ▸ hv.symm) hw
      · rw [if_neg hv] at h; simp at h
    | str s =>
      simp only [setGo] at h
      by_cases hv : v = .undefined
      · rw [if_pos hv] at h; simp at h
        exact absurd (h.2 ▸ hv.symm) hw
      · rw [if_neg hv] at h; simp at h
  | cons k ks ih =>
    cases t with
    | obj fs =>
      simp only [setGo] at h
      cases hc : setGo (if fs.has k then fs.get k else .obj .nil) ks lk v with
      | error e => rw [hc] at h; simp at h
      | ok pr =>
        obtain ⟨c', ov⟩ := pr
        rw [hc] at h
        simp at h
        obtain ⟨ht', hov⟩ := h
        rw [hov] at hc
        obtain ⟨c'', hsg, himp⟩ := ih hc
        refine ⟨.obj ((fs.set k c').set k c''), ?_, ?_⟩
        · simp [← ht', setGo, JFields.has_set_self, JFields.get_set_self, hsg]
        · intro hwv
          rw [himp hwv, JFields.set_set, ht']
    | null => simp [setGo] at h
    | undefined => simp [setGo] at h
    | bool b => simp [setGo] at h
    | num n => simp [setGo] at h
    | str s => simp [setGo] at h

theorem getLoop_single (t : JVal) (k : String) : getLoop t [k] = jsGetStep t k := by
  by_cases h : jsGetStep t k = .undefined <;> simp [getLoop, h]

theorem navigable_empty : (ks : List String) → navigable (.obj .nil) ks = true
  | [] => rfl
  | _ :: _ => by simp [navigable, JFields.has]

/-- On a navigable path the `set` walk cannot throw, produces an object,
and a subsequent `get` walk of the same path reads the written value. -/
theorem setGo_navigable {t : JVal} {inter : List String} (lk : String) (v : JVal)
    (h : navigable t inter = true) :
    ∃ t' old, setGo t inter lk v = .ok (t', old) ∧ t'.isObj = true ∧
      getLoop t' (inter ++ [lk]) = v := by
  induction inter generalizing t with
  | nil =>
    cases t with
    | obj fs =>
      by_cases hov : fs.get lk = v
      · exact ⟨.obj fs, fs.get lk, by simp [setGo, hov],
          by simp [JVal.isObj], by simp [getLoop_single, jsGetStep, hov]⟩
      · exact ⟨.obj (fs.set lk v), fs.get lk, by simp [setGo, hov],
          by simp [JVal.isObj], by simp [getLoop_single, jsGetStep, JFields.get_set_self]⟩
    | null => simp [navigable] at h
    | undefined => simp [navigable] at h
    | bool b => simp [navigable] at h
    | num n => simp [navigable] at h
    | str s => simp [navigable] at h
  | cons k ks ih =>
    cases t with
    | obj fs =>
      have step : ∀ child : JVal, navigable child ks = true →
          (if fs.has k then fs.get k else .obj .nil) = child →
          ∃ t' old, setGo (.obj fs) (k :: ks) lk v = .ok (t', old) ∧ t'.isObj = true ∧
            getLoop t' ((k :: ks) ++ [lk]) = v := by
        intro child hnav hchild
        obtain ⟨c', old, hsg, hobj, hget⟩ := ih hnav
        have hcundefined : c' ≠ .undefined := by
          intro he; rw [he] at hobj; simp [JVal.isObj] at hobj
        refine ⟨.obj (fs.set k c'), old, ?_, by simp [JVal.isObj], ?_⟩
        · simp [setGo, hchild, hsg]
        · simp only [List.cons_append, getLoop, jsGetStep, JFields.get_set_self]
          rw [if_neg hcundefined]
          exact hget
      by_cases hk : fs.has k
      · exact step (fs.get k) (by simpa [navigable, hk] using h) (by simp [hk])
      · exact step (.obj .nil) (navigable_empty ks) (by simp [hk])
    | null => simp [navigable] at h
    | undefined => simp [navigable] at h
    | bool b => simp [navigable] at h
    | num n => simp [navigable] at h
    | str s => simp [navigable] at h

theorem getLoop_absent {t : JVal} {segs : List String}
    (h : pathAbsent t segs = true) : getLoop t segs = .undefined := by
  induction segs generalizing t with
  | nil => simp [pathAbsent] at h
  | cons k ks ih =>
    by_cases hu : jsGetStep t k = .undefined
    · simp [getLoop, hu]
    · simp only [pathAbsent] at h
      rw [if_neg hu] at h
      simp [getLoop, hu, ih h]

theorem notifyLoop_eq (throws : CbId → Bool) (nv ov : JVal) : (l : List CbId) →
    notifyLoop throws nv ov l = (l.map (fun c => ⟨c, nv, ov⟩), l.filter throws)
  | [] => rfl
  | cb :: rest => by
    simp only [notifyLoop, notifyLoop_eq throws nv ov rest, List.filter_cons]
    by_cases h : throws cb <;> simp [h]

theorem notify_eq (throws : CbId → Bool) (s : SMState) (key : String) (nv ov : JVal) :
    SMState.notify throws s key nv ov =
      ((obsOf s key).map (fun c => ⟨c, nv, ov⟩), (obsOf s key).filter throws) := by
  unfold SMState.notify obsOf
  cases h : obsFind s.observers key <;> simp [h, notifyLoop_eq]

/-- Unfolding of a successful `StateManager.set` in the value-changed
case. -/
theorem set_eq_changed {throws : CbId → Bool} {s : SMState} {key : String}
    {v t' old : JVal}
    (hg : setGo s.tree ((jsplit key).dropLast) ((jsplit key).getLastD "") v
            = .ok (t', old))
    (hne : old ≠ v) :
    SMState.set throws s key v =
      .ok ⟨⟨t', s.observers⟩, some (v, old),
           (obsOf s key).map (fun c => ⟨c, v, old⟩), (obsOf s key).filter throws⟩ := by
  unfold SMState.set
  rw [hg]
  simp [hne, notify_eq]

/-- Unfolding of a successful `StateManager.set` in the unchanged case. -/
theorem set_eq_same {throws : CbId → Bool} {s : SMState} {key : String}
    {v t' old : JVal}
    (hg : setGo s.tree ((jsplit key).dropLast) ((jsplit key).getLastD "") v
            = .ok (t', old))
    (heq : old = v) :
    SMState.set throws s key v = .ok ⟨⟨t', s.observers⟩, none, [], []⟩ := by
  unfold SMState.set
  rw [hg]
  simp [heq]

/-- Inversion of a successful `StateManager.set`. -/
theorem set_ok_elim {throws : CbId → Bool} {s : SMState} {key : String} {v : JVal}
    {o : SetOutcome} (h : SMState.set throws s key v = .ok o) :
    ∃ t' old,
      setGo s.tree ((jsplit key).dropLast) ((jsplit key).getLastD "") v = .ok (t', old) ∧
      o.st = ⟨t', s.observers⟩ ∧
      ((old = v ∧ o.notified = none ∧ o.invocations = [] ∧ o.errorsLogged = []) ∨
       (old ≠ v ∧ o.notified = some (v, old) ∧
        o.invocations = (obsOf s key).map (fun c => ⟨c, v, old⟩) ∧
        o.errorsLogged = (obsOf s key).filter throws)) := by
  cases hg : setGo s.tree ((jsplit key).dropLast) ((jsplit key).getLastD "") v with
  | error e =>
    unfold SMState.set at h
    rw [hg] at h
    simp at h
  | ok pr =>
    obtain ⟨t', old⟩ := pr
    by_cases hov : old = v
    · have h2 := (set_eq_same hg hov).symm.trans h
      injection h2 with h3
      exact ⟨t', old, rfl, by rw [← h3], Or.inl ⟨hov, by rw [← h3], by rw [← h3],
        by rw [← h3]⟩⟩
    · have h2 := (set_eq_changed hg hov).symm.trans h
      injection h2 with h3
      exact ⟨t', old, rfl, by rw [← h3], Or.inr ⟨hov, by rw [← h3], by rw [← h3],
        by rw [← h3]⟩⟩

theorem obsFind_mem {obs : List (String × List CbId)} {key : String} {l : List CbId}
    (h : obsFind obs key = some l) : ∃ p ∈ obs, p.2 = l := by
  induction obs with
  | nil => simp [obsFind] at h
  | cons p rest ih =>
    simp only [obsFind] at h
    by_cases hp : p.1 = key
    · rw [if_pos hp] at h
      injection h with h
      exact ⟨p, by simp, h⟩
    · rw [if_neg hp] at h
      obtain ⟨q, hq, hql⟩ := ih h
      exact ⟨q, List.mem_cons_of_mem p hq, hql⟩

theorem obsOf_nodup {s : SMState} (hWF : SMWF s.observers) (key : String) :
    (obsOf s key).Nodup := by
  unfold obsOf
  cases h : obsFind s.observers key with
  | none => simp
  | some l =>
    obtain ⟨p, hp, hpl⟩ := obsFind_mem h
    simpa [hpl] using hWF p hp

theorem subscribe_obsOf (s : SMState) (k : String) (cb : CbId) :
    obsOf (SMState.subscribe s k cb) k = setAdd (obsOf s k) cb := by
  unfold SMState.subscribe obsOf
  by_cases h : (obsFind s.observers k).isSome
  · simp only [h, if_pos, obsFind_obsSet_self]
    rfl
  · cases hf : obsFind s.observers k with
    | some l => rw [hf] at h; simp at h
    | none =>
      simp only [hf, Option.isSome_none, Bool.false_eq_true, if_neg, if_false,
        obsFind_obsSet_self, obsFind_obsSet_self]
      simp [obsFind_obsSet_self]

theorem subscribe_obsOf_ne (s : SMState) {k k' : String} (h : k' ≠ k) (cb : CbId) :
    obsOf (SMState.subscribe s k cb) k' = obsOf s k' := by
  unfold SMState.subscribe obsOf
  by_cases hs : (obsFind s.observers k).isSome
  · simp only [hs, if_pos]
    rw [obsFind_obsSet_ne _ h]
  · simp only [hs, Bool.false_eq_true, if_false]
    rw [obsFind_obsSet_ne _ h, obsFind_obsSet_ne _ h]

/-- Registering the same callback twice is a no-op on the second call. -/
theorem subscribe_idem (s : SMState) (k : String) (cb : CbId) :
    SMState.subscribe (SMState.subscribe s k cb) k cb = SMState.subscribe s k cb := by
  unfold SMState.subscribe
  by_cases h : (obsFind s.observers k).isSome
  · simp only [h, if_pos, obsFind_obsSet_self, Option.isSome_some, Option.getD_some,
      obsSet_obsSet, setAdd_idem]
  · have hf : obsFind s.observers k = none := by
      cases hf : obsFind s.observers k with
      | none => rfl
      | some l => rw [hf] at h; simp at h
    simp [hf, obsFind_obsSet_self, obsSet_obsSet, setAdd_idem]

theorem filter_map_inv_not_mem {l : List CbId} {c : CbId} (hc : c ∉ l) (nv ov : JVal) :
    (l.map (fun x => (⟨x, nv, ov⟩ : Invocation))).filter (fun i => i.cb = c) = [] := by
  induction l with
  | nil => rfl
  | cons a t ih =>
    have ha : ¬ a = c := fun h => hc (h ▸ List.mem_cons_self a t)
    simp only [List.map_cons, List.filter_cons, decide_eq_true_eq]
    rw [if_neg ha]
    exact ih (fun h => hc (List.mem_cons_of_mem a h))

theorem filter_map_inv_single {l : List CbId} {c : CbId} (hn : l.Nodup) (hc : c ∈ l)
    (nv ov : JVal) :
    (l.map (fun x => (⟨x, nv, ov⟩ : Invocation))).filter (fun i => i.cb = c)
      = [⟨c, nv, ov⟩] := by
  induction l with
  | nil => simp at hc
  | cons a t ih =>
    rcases List.mem_cons.mp hc with rfl | hct
    · simp only [List.map_cons, List.filter_cons, decide_eq_true_eq, eq_self_iff_true,
        if_true]
      rw [filter_map_inv_not_mem (List.nodup_cons.mp hn).1]
    · have ha : ¬ a = c := fun h => (List.nodup_cons.mp hn).1 (h ▸ hct)
      simp only [List.map_cons, List.filter_cons, decide_eq_true_eq]
      rw [if_neg ha]
      exact ih (List.nodup_cons.mp hn).2 hct

/-! ## The claims -/

/-- **C1.**  After `set(p, v1)` actually stored `v1` (its notification
fired), `set(p, v2)` with `v1 ≠ v2` broadcasts `(v2, v1)` and invokes
every observer registered on exactly path `p` exactly once with those
arguments; a repeated `set(p, v1)` stores nothing new and invokes no
observer, so two consecutive `set(p, v1)` calls produce exactly one
notification in total (the first one, `o1.notified`). -/
theorem state_set_notifies_once (throws : CbId → Bool) (s : SMState) (p : String)
    (v1 v2 : JVal) (hWF : SMWF s.observers) (hne : v1 ≠ v2) (o1 : SetOutcome)
    (h1 : SMState.set throws s p v1 = .ok o1) (hw : o1.notified.isSome) :
    ∃ o2, SMState.set throws o1.st p v2 = .ok o2 ∧
      o2.notified = some (v2, v1) ∧
      o2.invocations = (obsOf o1.st p).map (fun c => ⟨c, v2, v1⟩) ∧
      (∀ c ∈ obsOf o1.st p,
        o2.invocations.filter (fun i => i.cb = c) = [⟨c, v2, v1⟩]) ∧
      ∃ o2', SMState.set throws o1.st p v1 = .ok o2' ∧ o2'.st = o1.st ∧
        o2'.notified = none ∧ o2'.invocations = [] := by
  obtain ⟨t1, old, hg, hst, hcases⟩ := set_ok_elim h1
  rcases hcases with ⟨heq, hnone, -, -⟩ | ⟨hneq, hsome, hinv, herr⟩
  · rw [hnone] at hw; simp at hw
  · have htree1 : o1.st.tree = t1 := by rw [hst]
    have hobs1 : o1.st.observers = s.observers := by rw [hst]
    have hobsOf : obsOf o1.st p = obsOf s p := by unfold obsOf; rw [hobs1]
    obtain ⟨t2, hsg2, -⟩ := setGo_again hg hneq v2
    have hg2 : setGo o1.st.tree ((jsplit p).dropLast) ((jsplit p).getLastD "") v2
        = .ok (t2, v1) := by rw [htree1]; exact hsg2
    refine ⟨_, set_eq_changed hg2 hne, rfl, ?_, ?_, ?_⟩
    · simp [hobs1]
    · intro c hc
      have hnd : (obsOf o1.st p).Nodup := by
        rw [hobsOf]; exact obsOf_nodup hWF p
      exact filter_map_inv_single hnd hc v2 v1
    · obtain ⟨t3, hsg3, himp3⟩ := setGo_again hg hneq v1
      have ht3 : t3 = t1 := himp3 rfl
      have hg3 : setGo o1.st.tree ((jsplit p).dropLast) ((jsplit p).getLastD "") v1
          = .ok (t1, v1) := by rw [htree1]; exact ht3 ▸ hsg3
      refine ⟨_, set_eq_same hg3 rfl, ?_, rfl, rfl⟩
      rw [hst]

/-- Witness for C1: the initial store with one observer of
`"currentView"`, `v1 = 'portfolio'`, `v2 = 'home'`. -/
theorem state_set_notifies_once_witness :
    ∃ o2, SMState.set (fun _ => false) demoO1.st "currentView" (JVal.str "home")
        = .ok o2 ∧
      o2.notified = some (JVal.str "home", JVal.str "portfolio") ∧
      o2.invocations = (obsOf demoO1.st "currentView").map
        (fun c => ⟨c, JVal.str "home", JVal.str "portfolio"⟩) ∧
      (∀ c ∈ obsOf demoO1.st "currentView",
        o2.invocations.filter (fun i => i.cb = c)
          = [⟨c, JVal.str "home", JVal.str "portfolio"⟩]) ∧
      ∃ o2', SMState.set (fun _ => false) demoO1.st "currentView"
          (JVal.str "portfolio") = .ok o2' ∧ o2'.st = demoO1.st ∧
        o2'.notified = none ∧ o2'.invocations = [] :=
  state_set_notifies_once (fun _ => false) demoS "currentView" (.str "portfolio")
    (.str "home") (by unfold SMWF; decide) (by decide) demoO1 (by decide) (by decide)

/-- **C7.**  When a `set` changed the stored value, every observer of the
exact path is invoked, in registration order, with the same
`(newValue, oldValue)` pair — including those after a throwing observer —
and exactly the throwing observers are caught and logged as errors. -/
theorem state_notify_error_isolated (throws : CbId → Bool) (s : SMState)
    (key : String) (v : JVal) (o : SetOutcome)
    (h : SMState.set throws s key v = .ok o) (nv old : JVal)
    (hn : o.notified = some (nv, old)) :
    nv = v ∧
    o.invocations = (obsOf s key).map (fun c => ⟨c, v, old⟩) ∧
    o.errorsLogged = (obsOf s key).filter throws := by
  obtain ⟨t', old', hg, hst, hcases⟩ := set_ok_elim h
  rcases hcases with ⟨-, hnone, -, -⟩ | ⟨hneq, hsome, hinv, herr⟩
  · rw [hnone] at hn; simp at hn
  · rw [hsome] at hn
    injection hn with hn
    injection hn with hnv hold
    exact ⟨hnv.symm, by rw [hinv, hold], by rw [herr]⟩

/-- Witness for C7: two observers on `"currentView"`, the first of which
throws; both are invoked and the throwing one is logged. -/
theorem state_notify_error_isolated_witness :
    JVal.str "x" = JVal.str "x" ∧
    demoO2.invocations = (obsOf demoS2 "currentView").map
      (fun c => ⟨c, JVal.str "x", JVal.str "home"⟩) ∧
    demoO2.errorsLogged = (obsOf demoS2 "currentView").filter demoThrows :=
  state_notify_error_isolated demoThrows demoS2 "currentView" (.str "x") demoO2
    (by decide) (JVal.str "x") (.str "home") (by decide)

theorem unsubscribe_obsOf (s : SMState) (k : String) (cb : CbId) :
    obsOf (SMState.unsubscribe s k cb) k = (obsOf s k).filter (fun c => c ≠ cb) := by
  unfold SMState.unsubscribe obsOf
  cases h : obsFind s.observers k with
  | none => simp [h]
  | some l => simp [h, obsFind_obsSet_self]

theorem runSetsAt_never_invokes (throws : CbId → Bool) (k : String) (cb : CbId) :
    ∀ (vs : List JVal) (s' : SMState), cb ∉ obsOf s' k →
      ∀ i ∈ (runSetsAt throws s' k vs).2, i.cb ≠ cb := by
  intro vs
  induction vs with
  | nil => intro s' hcb i hi; simp [runSetsAt] at hi
  | cons v vs ih =>
    intro s' hcb i hi
    simp only [runSetsAt] at hi
    cases ho : SMState.set throws s' k v with
    | error e => rw [ho] at hi; simp at hi
    | ok o =>
      rw [ho] at hi
      simp at hi
      obtain ⟨t', old, hg, hst, hcases⟩ := set_ok_elim ho
      have hobs : obsOf o.st k = obsOf s' k := by unfold obsOf; rw [hst]
      rcases hi with hi | hi
      · rcases hcases with ⟨-, -, hinv, -⟩ | ⟨-, -, hinv, -⟩
        · rw [hinv] at hi; simp at hi
        · rw [hinv] at hi
          obtain ⟨c, hc, hic⟩ := List.mem_map.mp hi
          intro he
          rw [← hic] at he
          exact hcb (he ▸ hc)
      · exact ih o.st (hobs ▸ hcb) i hi

/-- **C6.**  `subscribe(p, cb)` is idempotent for the same callback (a
second registration changes nothing, and `cb` fires at most once per
notification); after the returned unsubscribe ran, no later `set` on that
path ever notifies `cb` again, while every other observer of the path
stays registered and keeps being notified on changes. -/
theorem state_subscribe_idem_unsubscribe_stops (throws : CbId → Bool) (s : SMState)
    (k : String) (cb : CbId) (hWF : SMWF s.observers) :
    SMState.subscribe (SMState.subscribe s k cb) k cb = SMState.subscribe s k cb ∧
    (∀ v o, SMState.set throws (SMState.subscribe s k cb) k v = .ok o →
      (o.invocations.filter (fun i => i.cb = cb)).length ≤ 1) ∧
    obsOf (SMState.unsubscribe s k cb) k = (obsOf s k).filter (fun c => c ≠ cb) ∧
    (∀ vs : List JVal,
      ∀ i ∈ (runSetsAt throws (SMState.unsubscribe s k cb) k vs).2, i.cb ≠ cb) ∧
    (∀ cb', cb' ≠ cb → cb' ∈ obsOf s k →
      cb' ∈ obsOf (SMState.unsubscribe s k cb) k) ∧
    (∀ v o, SMState.set throws (SMState.unsubscribe s k cb) k v = .ok o →
      o.notified ≠ none →
      ∀ cb' ∈ obsOf (SMState.unsubscribe s k cb) k,
        ∃ i ∈ o.invocations, i.cb = cb') := by
  refine ⟨subscribe_idem s k cb, ?_, unsubscribe_obsOf s k cb, ?_, ?_, ?_⟩
  · intro v o ho
    obtain ⟨t', old, hg, hst, hcases⟩ := set_ok_elim ho
    rcases hcases with ⟨-, -, hinv, -⟩ | ⟨-, -, hinv, -⟩
    · simp [hinv]
    · rw [hinv]
      have hnd : (obsOf (SMState.subscribe s k cb) k).Nodup := by
        rw [subscribe_obsOf]
        exact setAdd_nodup (obsOf_nodup hWF k) cb
      by_cases hc : cb ∈ obsOf (SMState.subscribe s k cb) k
      · rw [filter_map_inv_single hnd hc]; simp
      · rw [filter_map_inv_not_mem hc]; simp
  · intro vs
    refine runSetsAt_never_invokes throws k cb vs _ ?_
    rw [unsubscribe_obsOf]
    intro hmem
    have := List.of_mem_filter hmem
    simp at this
  · intro cb' hne hmem
    rw [unsubscribe_obsOf]
    exact List.mem_filter.mpr ⟨hmem, by simpa using hne⟩
  · intro v o ho hnot cb' hmem
    obtain ⟨t', old, hg, hst, hcases⟩ := set_ok_elim ho
    rcases hcases with ⟨-, hnone, -, -⟩ | ⟨-, -, hinv, -⟩
    · exact absurd hnone hnot
    · rw [hinv]
      exact ⟨⟨cb', v, old⟩, List.mem_map_of_mem _ hmem, rfl⟩

/-- Witness for C6 at concrete inputs (idempotence and the unsubscribe
effect on the observer set). -/
theorem state_subscribe_idem_unsubscribe_stops_witness :
    SMState.subscribe (SMState.subscribe demoS2 "currentView" 0) "currentView" 0
      = SMState.subscribe demoS2 "currentView" 0 ∧
    obsOf (SMState.unsubscribe demoS2 "currentView" 0) "currentView"
      = (obsOf demoS2 "currentView").filter (fun c => c ≠ 0) := by
  obtain ⟨h1, -, h3, -⟩ :=
    state_subscribe_idem_unsubscribe_stops (fun _ => false) demoS2 "currentView" 0
      (by unfold SMWF; decide)
  exact ⟨h1, h3⟩

/-- **C4 counterexample.**  `set` is not exception-free on every path: on
the initial state, `set('currentView.x.y', 1)` walks into the primitive
string stored at `currentView` and the `in` operator throws a
`TypeError` (the claim says `set` never throws). -/
theorem state_set_throws_counterexample :
    SMState.set (fun _ => false) initialSM "currentView.x.y" (.num 1)
      = .error .typeError := by decide

/-- **C4 amended.**  `get` never throws and an absent segment makes it
return `undefined`; `set` stores the value and auto-creates absent
intermediate objects — and cannot throw — provided every *existing* value
met along the walk (intermediate segments and the final container) is a
plain object; a primitive or `null` met there throws a `TypeError`, as
the counterexample shows. -/
theorem state_paths_amended (throws : CbId → Bool) (s : SMState) (p q : String)
    (v : JVal) (hnav : navigable s.tree ((jsplit p).dropLast) = true)
    (habs : pathAbsent s.tree (jsplit q) = true) :
    SMState.get s q = .undefined ∧
    ∃ o, SMState.set throws s p v = .ok o ∧ SMState.get o.st p = v ∧
      o.st.observers = s.observers := by
  constructor
  · exact getLoop_absent habs
  · obtain ⟨t', old, hg, hobj, hget⟩ := setGo_navigable ((jsplit p).getLastD "") v hnav
    by_cases hov : old = v
    · refine ⟨_, set_eq_same hg hov, ?_, rfl⟩
      show getLoop t' (jsplit p) = v
      rw [← jsplit_split p]
      exact hget
    · refine ⟨_, set_eq_changed hg hov, ?_, rfl⟩
      show getLoop t' (jsplit p) = v
      rw [← jsplit_split p]
      exact hget

/-- Witness for the amended C4: a read of an absent nested key returns
`undefined`, and a three-level write whose whole chain is absent
auto-creates the objects and stores the value. -/
theorem state_paths_amended_witness :
    SMState.get initialSM "animations.nope" = .undefined ∧
    ∃ o, SMState.set (fun _ => false) initialSM "profile.links.github"
        (.str "url") = .ok o ∧
      SMState.get o.st "profile.links.github" = .str "url" ∧
      o.st.observers = initialSM.observers :=
  state_paths_amended (fun _ => false) initialSM "profile.links.github"
    "animations.nope" (.str "url") (by decide) (by decide)

/-- Running the logger from any under-capacity history keeps exactly the
suffix of the last `maxLogs` entries (push + `shift` = FIFO). -/
theorem runLogs_drop : ∀ (cs : List LogCall) (logs : List LogEntry),
    logs.length ≤ maxLogs →
    runLogs logs cs
      = (logs ++ cs.map entryOf).drop (logs.length + cs.length - maxLogs)
  | [], logs, h => by
    simp [runLogs, Nat.sub_eq_zero_of_le h]
  | c :: cs, logs, h => by
    rw [show runLogs logs (c :: cs) = runLogs (runLog logs c) cs from rfl]
    by_cases hlen : logs.length + 1 ≤ maxLogs
    · have hadd : runLog logs c = logs ++ [entryOf c] := by
        unfold runLog addToHistory
        rw [if_neg (by simp; omega)]
      have ih := runLogs_drop cs (logs ++ [entryOf c]) (by simpa using hlen)
      rw [show runLogs (runLog logs c) cs = runLogs (logs ++ [entryOf c]) cs from by
            rw [hadd],
          ih]
      have harr : logs ++ [entryOf c] ++ cs.map entryOf
          = logs ++ (c :: cs).map entryOf := by simp
      have hcnt : (logs ++ [entryOf c]).length + cs.length - maxLogs
          = logs.length + (c :: cs).length - maxLogs := by
        simp only [List.length_append, List.length_cons, List.length_nil]
        omega
      rw [harr, hcnt]
    · have h100 : logs.length = maxLogs := by omega
      have hadd : runLog logs c = (logs ++ [entryOf c]).drop 1 := by
        unfold runLog addToHistory
        rw [if_pos (by simp; omega)]
      have ih := runLogs_drop cs ((logs ++ [entryOf c]).drop 1)
        (by simp only [List.length_drop, List.length_append, List.length_cons,
              List.length_nil]; omega)
      rw [show runLogs (runLog logs c) cs = runLogs ((logs ++ [entryOf c]).drop 1) cs
            from by rw [hadd],
          ih]
      rw [← List.drop_append_of_le_length (by simp), List.drop_drop]
      have harr : logs ++ [entryOf c] ++ cs.map entryOf
          = logs ++ (c :: cs).map entryOf := by simp
      have hcnt : 1 + (((logs ++ [entryOf c]).drop 1).length + cs.length - maxLogs)
          = logs.length + (c :: cs).length - maxLogs := by
        simp only [List.length_drop, List.length_append, List.length_cons,
          List.length_nil]
        omega
      rw [harr, hcnt]

/-- **C5.**  For every sequence of `debug`/`info`/`warn`/`error` calls the
retained history never exceeds the fixed capacity of 100 entries, and
after capacity + 50 calls on a fresh logger exactly the 100 most recent
entries remain, in insertion order (the oldest 50 were shifted out
first). -/
theorem logger_history_bounded_fifo (cs : List LogCall) :
    (runLogs [] cs).length ≤ maxLogs ∧
    (cs.length = maxLogs + 50 → runLogs [] cs = (cs.map entryOf).drop 50) := by
  have hall := runLogs_drop cs [] (by simp)
  simp only [List.nil_append, List.length_nil, Nat.zero_add] at hall
  constructor
  · rw [hall]
    simp only [List.length_drop, List.length_map]
    omega
  · intro h150
    rw [hall, h150]
    norm_num [maxLogs]

set_option maxRecDepth 4000 in
/-- Witness for C5 at 150 concrete `info` calls. -/
theorem logger_history_bounded_fifo_witness :
    runLogs [] demoCalls = (demoCalls.map entryOf).drop 50 :=
  (logger_history_bounded_fifo demoCalls).2 (by decide)

/-- **C8 counterexample.**  In an environment without the Performance API
(`isSupported = false`) an unmatched `endMeasure` returns `null` and
records nothing but logs *no* warning, contradicting the claim's "logs a
warning". -/
theorem perf_endMeasure_counterexample :
    alistFind (perfInit false).marks "op" = none ∧
    (endMeasure (perfInit false) "op" 0 0).ret = none ∧
    (endMeasure (perfInit false) "op" 0 0).pm = perfInit false ∧
    (endMeasure (perfInit false) "op" 0 0).warned = false := by decide

/-- **C8 amended.**  For every name, `endMeasure` without a prior matching
`startMeasure` never raises: it returns `null`, leaves the monitor (and
thus its recorded metrics) unchanged, and logs the `No start mark found`
warning exactly when the Performance API is supported — in unsupported
environments it returns `null` silently. -/
theorem perf_endMeasure_unmatched (pm : PerfMonitor) (name : String) (dur now : Int)
    (h : alistFind pm.marks name = none) :
    (endMeasure pm name dur now).ret = none ∧
    (endMeasure pm name dur now).pm = pm ∧
    (endMeasure pm name dur now).warned = pm.isSupported := by
  by_cases hs : pm.isSupported <;> simp [endMeasure, hs, h]

/-- Witness for the amended C8 in a supported environment. -/
theorem perf_endMeasure_unmatched_witness :
    (endMeasure (perfInit true) "op" 5 7).ret = none ∧
    (endMeasure (perfInit true) "op" 5 7).pm = perfInit true ∧
    (endMeasure (perfInit true) "op" 5 7).warned = (perfInit true).isSupported :=
  perf_endMeasure_unmatched (perfInit true) "op" 5 7 (by decide)

theorem listSet_get_ne {α : Type} :
    ∀ (l : List α) (i j : Nat) (v : α), i ≠ j → (listSet l j v).get? i = l.get? i
  | [], _, _, _, _ => rfl
  | _ :: _, i, 0, v, hij => by
    cases i with
    | zero => cases hij rfl
    | succ n => rfl
  | _ :: _, 0, _ + 1, v, hij => rfl
  | x :: xs, i + 1, j + 1, v, hij => by
    show (listSet xs j v).get? i = xs.get? i
    exact listSet_get_ne xs i j v (fun hh => hij (by rw [hh]))

/-- **C9 counterexample.**  The arrays `getLogs` returns are only shallow
copies: mutating an entry object reached through the returned array is
visible in the logger's internal history, contradicting "for every
mutation ... the internal history is left unchanged". -/
theorem logger_copy_counterexample :
    history (writeEntry (hgetLogs demoHeap).1
        ((lookupArr (hgetLogs demoHeap).1 (hgetLogs demoHeap).2).getD 0 0)
        ⟨"INFO", "mutated"⟩)
      ≠ history (hgetLogs demoHeap).1 := by decide

/-- **C9 amended.**  `getLogs` and `getLogsByLevel` return freshly
allocated arrays (never the internal one), so any array-level mutation of
a returned value — replacing, removing or inserting elements — leaves the
logger's history unchanged; the entry objects in the returned array are
shared by reference, so in-place mutation of an entry is visible in the
history (see the counterexample). -/
theorem logger_copies_amended (h : LogHeap) (hne : h.arrays ≠ []) (l' : List Nat)
    (lvl : String) :
    (hgetLogs h).2 ≠ 0 ∧
    history (writeArr (hgetLogs h).1 (hgetLogs h).2 l') = history h ∧
    (hgetLogsByLevel h lvl).2 ≠ 0 ∧
    history (writeArr (hgetLogsByLevel h lvl).1 (hgetLogsByLevel h lvl).2 l')
      = history h := by
  have hlen : h.arrays.length ≠ 0 := fun h0 => hne (List.length_eq_zero.mp h0)
  have key : ∀ frame : List Nat,
      history (writeArr ⟨h.entries, h.arrays ++ [frame]⟩ h.arrays.length l')
        = history h := by
    intro frame
    unfold history writeArr lookupArr lookupEntry
    have hget : (listSet (h.arrays ++ [frame]) h.arrays.length l').get? 0
        = h.arrays.get? 0 := by
      rw [listSet_get_ne _ _ _ _ (fun hh => hlen hh.symm),
        List.get?_eq_getElem?, List.get?_eq_getElem?]
      exact List.getElem?_append_left (Nat.pos_of_ne_zero hlen)
    rw [hget]
  exact ⟨hlen, key _, hlen, key _⟩

/-- Witness for the amended C9: a one-entry heap; the caller replaces the
contents of both returned arrays without affecting the history. -/
theorem logger_copies_amended_witness :
    (hgetLogs demoHeap).2 ≠ 0 ∧
    history (writeArr (hgetLogs demoHeap).1 (hgetLogs demoHeap).2 []) = history demoHeap ∧
    (hgetLogsByLevel demoHeap "INFO").2 ≠ 0 ∧
    history (writeArr (hgetLogsByLevel demoHeap "INFO").1
        (hgetLogsByLevel demoHeap "INFO").2 [])
      = history demoHeap :=
  logger_copies_amended demoHeap (by decide) [] "INFO"

/-- When the target sibling exists, `navigateToProject` returns
synchronously with the index already updated, the DOM untouched (all
mutations are still pending), the click cue played and exactly four
delayed actions appended to the queue. -/
theorem navigateToProject_some (s : NavState) (t : Int)
    (h : (nthArticle s.dom t).isSome) :
    (navigateToProject s t).currentProjectIndex = t ∧
    (navigateToProject s t).dom = s.dom ∧
    (navigateToProject s t).audio = s.audio ++ [Cue.click] ∧
    ∃ acts, (navigateToProject s t).pending = s.pending ++ acts ∧ acts.length = 4 := by
  cases hnt : nthArticle s.dom t with
  | none => rw [hnt] at h; simp at h
  | some j =>
    unfold navigateToProject
    simp only [hnt]
    exact ⟨trivial, trivial, trivial, _, rfl, rfl⟩

/-- When the target sibling does not exist, the call returns the state
with only the click cue appended. -/
theorem navigateToProject_none (s : NavState) (t : Int)
    (h : nthArticle s.dom t = none) :
    navigateToProject s t = { s with audio := s.audio ++ [Cue.click] } := by
  unfold navigateToProject
  simp only [h]

/-- **C2.**  Navigating to a sibling position with no DOM element —
directly or via next/previous — commits no visual change and schedules no
delayed action: `currentProjectIndex` keeps its prior value, the pending
queue is untouched, and every element's class list (the whole DOM) is
unchanged. -/
theorem nav_missing_sibling_ignored (s : NavState) (t : Int)
    (h : nthArticle s.dom t = none) :
    (navigateToProject s t).currentProjectIndex = s.currentProjectIndex ∧
    (navigateToProject s t).dom = s.dom ∧
    (navigateToProject s t).pending = s.pending ∧
    (nthArticle s.dom (s.currentProjectIndex + 1) = none →
      (navigateToNextProject s).currentProjectIndex = s.currentProjectIndex ∧
      (navigateToNextProject s).dom = s.dom ∧
      (navigateToNextProject s).pending = s.pending) ∧
    (nthArticle s.dom (s.currentProjectIndex - 1) = none →
      (navigateToPreviousProject s).currentProjectIndex = s.currentProjectIndex ∧
      (navigateToPreviousProject s).dom = s.dom ∧
      (navigateToPreviousProject s).pending = s.pending) := by
  refine ⟨?_, ?_, ?_, fun h1 => ?_, fun h1 => ?_⟩
  · rw [navigateToProject_none s t h]
  · rw [navigateToProject_none s t h]
  · rw [navigateToProject_none s t h]
  · unfold navigateToNextProject
    rw [navigateToProject_none s _ h1]
    exact ⟨rfl, rfl, rfl⟩
  · unfold navigateToPreviousProject
    rw [navigateToProject_none s _ h1]
    exact ⟨rfl, rfl, rfl⟩

/-- Witness for C2: three articles, request for sibling 7. -/
theorem nav_missing_sibling_ignored_witness :
    (navigateToProject demoNav 7).currentProjectIndex = demoNav.currentProjectIndex ∧
    (navigateToProject demoNav 7).dom = demoNav.dom ∧
    (navigateToProject demoNav 7).pending = demoNav.pending := by
  obtain ⟨h1, h2, h3, -, -⟩ := nav_missing_sibling_ignored demoNav 7 (by decide)
  exact ⟨h1, h2, h3⟩

/-- **C3.**  With an existing target, `navigateToProject(t)` sets
`currentProjectIndex := t` synchronously at initiation — in the returned
state the DOM is still untouched and all four delayed actions are merely
pending — so two rapid `navigateToNextProject` requests (no timer fired
in between) compute their targets `i+1` and then `i+2` against the
already-incremented index. -/
theorem nav_index_updates_synchronously (s : NavState) (t : Int)
    (h : (nthArticle s.dom t).isSome) :
    (navigateToProject s t).currentProjectIndex = t ∧
    (navigateToProject s t).dom = s.dom ∧
    (∃ acts, (navigateToProject s t).pending = s.pending ++ acts ∧
      acts.length = 4) ∧
    ((nthArticle s.dom (s.currentProjectIndex + 1)).isSome →
      navigateToNextProject (navigateToNextProject s)
        = navigateToProject (navigateToNextProject s) (s.currentProjectIndex + 2)) ∧
    ((nthArticle s.dom (s.currentProjectIndex + 1)).isSome →
      (nthArticle s.dom (s.currentProjectIndex + 2)).isSome →
      (navigateToNextProject (navigateToNextProject s)).currentProjectIndex
        = s.currentProjectIndex + 2) := by
  obtain ⟨hidx, hdom, haud, hpend⟩ := navigateToProject_some s t h
  refine ⟨hidx, hdom, hpend, fun h1 => ?_, fun h1 h2 => ?_⟩
  · obtain ⟨hidx1, -, -, -⟩ := navigateToProject_some s _ h1
    show navigateToProject (navigateToNextProject s)
        ((navigateToNextProject s).currentProjectIndex + 1) = _
    rw [show (navigateToNextProject s).currentProjectIndex
          = s.currentProjectIndex + 1 from hidx1]
    congr 1
    omega
  · obtain ⟨hidx1, hdom1, -, -⟩ := navigateToProject_some s _ h1
    have h2' : (nthArticle (navigateToNextProject s).dom
        ((navigateToNextProject s).currentProjectIndex + 1)).isSome := by
      unfold navigateToNextProject
      rw [hdom1, hidx1, show s.currentProjectIndex + 1 + 1
            = s.currentProjectIndex + 2 from by omega]
      exact h2
    obtain ⟨hidx2, -, -, -⟩ := navigateToProject_some (navigateToNextProject s) _ h2'
    show (navigateToProject (navigateToNextProject s)
        ((navigateToNextProject s).currentProjectIndex + 1)).currentProjectIndex = _
    rw [hidx2]
    show (navigateToProject s (s.currentProjectIndex + 1)).currentProjectIndex + 1
        = s.currentProjectIndex + 2
    rw [hidx1]
    omega

/-- Witness for C3: three articles, current index 1; a direct navigation
to 2 and the rapid next-next sequence landing on 3. -/
theorem nav_index_updates_synchronously_witness :
    (navigateToProject demoNav 2).currentProjectIndex = 2 ∧
    (navigateToProject demoNav 2).dom = demoNav.dom ∧
    (navigateToNextProject (navigateToNextProject demoNav)).currentProjectIndex
      = demoNav.currentProjectIndex + 2 := by
  obtain ⟨h1, h2, -, -, h5⟩ :=
    nav_index_updates_synchronously demoNav 2 (by decide)
  exact ⟨h1, h2, h5 (by decide) (by decide)⟩

/-- **C10.**  Even when the target sibling does not exist and the
navigation is otherwise ignored, the click audio cue *is* requested
(`playClick()` runs before the target-existence check): the only
observable effect of the call is the appended click cue. -/
theorem nav_missing_target_still_clicks (s : NavState) (t : Int)
    (h : nthArticle s.dom t = none) :
    (navigateToProject s t).audio = s.audio ++ [Cue.click] ∧
    navigateToProject s t = { s with audio := s.audio ++ [Cue.click] } := by
  rw [navigateToProject_none s t h]
  exact ⟨rfl, rfl⟩

/-- Witness for C10: request for sibling 0 (`:nth-child(0)` matches
nothing) still plays the click. -/
theorem nav_missing_target_still_clicks_witness :
    (navigateToProject demoNav 0).audio = demoNav.audio ++ [Cue.click] ∧
    navigateToProject demoNav 0
      = { demoNav with audio := demoNav.audio ++ [Cue.click] } :=
  nav_missing_target_still_clicks demoNav 0 (by decide)

end Portfolio
